import Mathlib

/-!
Shallow embedding of the local-skills-mcp server core:
`SkillLoader` (src/skill-loader.ts) and the server entry points
(`getAllSkillsDirectories`, tool-call handling in src/index.ts).

The filesystem is modelled as explicit functions (directory listing,
an access probe, file reading); strings of file content are modelled as
`List Char`; the JS `Map` is modelled as an association list whose
`set` keeps the first occurrence's position and overwrites its value,
exactly like `Map.prototype.set`.  The YAML parser used for the
frontmatter block is a parameter (`yaml`); a small concrete
line-oriented instance (`yamlSimple`) is provided for concrete runs.
-/

instance {e a : Type} [DecidableEq e] [DecidableEq a] : DecidableEq (Except e a) := fun x y =>
  match x, y with
  | .ok u, .ok v => if h : u = v then isTrue (by rw [h]) else isFalse (by simp [h])
  | .error u, .error v => if h : u = v then isTrue (by rw [h]) else isFalse (by simp [h])
  | .ok _, .error _ => isFalse (by simp)
  | .error _, .ok _ => isFalse (by simp)

/-- One entry of `fs.readdir(path, { withFileTypes: true })`. -/
structure DirEntry where
  name : String
  isDir : Bool
deriving DecidableEq

/-- Outcome of `fs.readdir`: success with entries, an ENOENT failure
(directory does not exist), or any other failure carrying its message. -/
inductive ReadDirResult where
  | ok (entries : List DirEntry)
  | enoent
  | failure (msg : String)
deriving DecidableEq

/-- The filesystem as seen by the server: directory listing, the
`fs.access` probe (true = accessible), and file reading (error = the
thrown I/O error's message). -/
structure FileSystem where
  readdir : String → ReadDirResult
  access : String → Bool
  readFile : String → Except String (List Char)

/-- `path.join(a, b)` modelled as separator concatenation. -/
def pathJoin (a b : String) : String := a ++ "/" ++ b

/-- A registry value: `{ path, source }` as stored by `discoverSkills`. -/
structure SkillInfo where
  path : String
  source : String
deriving DecidableEq

/-- Skill metadata from YAML frontmatter in SKILL.md (src/types.ts). -/
structure SkillMetadata where
  name : String
  description : String
deriving DecidableEq

/-- Full skill definition including prompt content (src/types.ts). -/
structure Skill where
  name : String
  description : String
  content : List Char
  path : String
  source : String
deriving DecidableEq

/-- Result of decoding a frontmatter block: the `name` and
`description` fields, each possibly absent. -/
structure YamlHeader where
  name : Option String
  description : Option String
deriving DecidableEq

/-- JS falsiness of an optional string: absent or empty. -/
def strFalsy : Option String → Bool
  | none => true
  | some s => s = ""

/-- The four format violations thrown by `parseSkillFile`. -/
inductive ParseError where
  | missingOpeningDelimiter
  | missingClosingDelimiter
  | missingNameField
  | missingDescriptionField
deriving DecidableEq

/-- The exact `Error` message thrown for each violation. -/
def ParseError.message : ParseError → String
  | .missingOpeningDelimiter => "SKILL.md must start with YAML frontmatter (---)"
  | .missingClosingDelimiter => "SKILL.md frontmatter must end with --- delimiter"
  | .missingNameField => "SKILL.md frontmatter must include \"name\" field"
  | .missingDescriptionField => "SKILL.md frontmatter must include \"description\" field"

/-- The opening frontmatter delimiter `'---\n'`. -/
def openDelim : List Char := ['-', '-', '-', '\n']

/-- The closing frontmatter delimiter `'\n---\n'`. -/
def closeDelim : List Char := ['\n', '-', '-', '-', '\n']

/-- Helper for `String.prototype.indexOf`: smallest index (counted from
`i`) at which `pat` occurs in the remaining text. -/
def findFromAux (pat : List Char) : List Char → Nat → Option Nat
  | [], i => if pat.isPrefixOf [] then some i else none
  | c :: rest, i =>
    if pat.isPrefixOf (c :: rest) then some i
    else findFromAux pat rest (i + 1)

/-- `s.indexOf(pat, start)`: first occurrence of `pat` in `s` at an
index `≥ start`, or `none` (JS returns `-1`). -/
def findFrom (pat s : List Char) (start : Nat) : Option Nat :=
  (findFromAux pat (s.drop start) 0).map (· + start)

/-- Whitespace as removed by `String.prototype.trim`. -/
def isJsWhitespace (c : Char) : Bool :=
  c = ' ' || c = '\t' || c = '\n' || c = '\r' || c = '\x0b' || c = '\x0c' ||
  c = '\u00A0' || c = '\uFEFF' || c = '\u1680' ||
  ('\u2000' ≤ c && c ≤ '\u200A') || c = '\u2028' || c = '\u2029' ||
  c = '\u202F' || c = '\u205F' || c = '\u3000'

/-- `String.prototype.trim`: strip whitespace from both ends. -/
def jsTrim (s : List Char) : List Char :=
  ((s.dropWhile isJsWhitespace).reverse.dropWhile isJsWhitespace).reverse

/-- `Map.prototype.get` on the association-list model. -/
def mapGet : List (String × SkillInfo) → String → Option SkillInfo
  | [], _ => none
  | p :: m, k => if p.1 = k then some p.2 else mapGet m k

/-- `Map.prototype.set`: overwrite in place if the key is present
(keeping its position), append otherwise. -/
def mapSet : List (String × SkillInfo) → String → SkillInfo → List (String × SkillInfo)
  | [], k, v => [(k, v)]
  | p :: m, k, v => if p.1 = k then (k, v) :: m else p :: mapSet m k v

/-- `parseSkillFile` (src/skill-loader.ts): parse SKILL.md text with
YAML frontmatter.  `yaml` is the frontmatter decoder (`YAML.parse`
restricted to the two fields the code reads). -/
def parseSkillFile (yaml : List Char → YamlHeader) (content : List Char) :
    Except ParseError (SkillMetadata × List Char) :=
  if openDelim.isPrefixOf content then
    match findFrom closeDelim content 4 with
    | none => .error .missingClosingDelimiter
    | some endDelimiterIndex =>
      let frontmatterText := (content.drop 4).take (endDelimiterIndex - 4)
      let metadata := yaml frontmatterText
      if strFalsy metadata.name then .error .missingNameField
      else if strFalsy metadata.description then .error .missingDescriptionField
      else
        .ok (⟨metadata.name.getD "", metadata.description.getD ""⟩,
          jsTrim (content.drop (endDelimiterIndex + 5)))
  else .error .missingOpeningDelimiter

/-- Mutable state of a `SkillLoader`: the configured directory list and
the registry map. -/
structure LoaderState where
  skillsPaths : List String
  skillRegistry : List (String × SkillInfo)

/-- The `SkillLoader` constructor: registry starts empty. -/
def newLoader (skillsPaths : List String) : LoaderState :=
  ⟨skillsPaths, []⟩

/-- Inner loop body of `discoverSkills`: process one directory entry of
a skills directory (probe for SKILL.md; register on success). -/
def scanEntry (fs : FileSystem) (skillsPath : String)
    (m : List (String × SkillInfo)) (e : DirEntry) : List (String × SkillInfo) :=
  if e.isDir then
    let skillPath := pathJoin skillsPath e.name
    if fs.access (pathJoin skillPath "SKILL.md") then
      mapSet m e.name ⟨skillPath, skillsPath⟩
    else m
  else m

/-- Outer loop body of `discoverSkills`: scan one configured directory,
accumulating the registry map and the error log (`console.error` for a
non-ENOENT readdir failure). -/
def scanStep (fs : FileSystem)
    (acc : List (String × SkillInfo) × List (String × String)) (skillsPath : String) :
    List (String × SkillInfo) × List (String × String) :=
  match fs.readdir skillsPath with
  | .ok entries => (entries.foldl (scanEntry fs skillsPath) acc.1, acc.2)
  | .enoent => acc
  | .failure msg =>
    (acc.1, acc.2 ++ [("Error reading directory " ++ skillsPath ++ ":", msg)])

/-- Result of one `discoverSkills` call: the returned sorted name list,
the updated loader state, and the logged directory-read errors. -/
structure DiscoverResult where
  names : List String
  state : LoaderState
  logs : List (String × String)

/-- `discoverSkills` (src/skill-loader.ts): rebuild the registry from a
full scan of every configured directory and return the sorted names. -/
def discoverSkills (fs : FileSystem) (st : LoaderState) : DiscoverResult :=
  let r := st.skillsPaths.foldl (scanStep fs) ([], [])
  ⟨List.insertionSort (· ≤ ·) (r.1.map Prod.fst), ⟨st.skillsPaths, r.1⟩, r.2⟩

/-- `loadSkill` (src/skill-loader.ts): look the name up in the registry
and read + parse the file fresh from disk.  Errors are the thrown
messages. -/
def loadSkill (yaml : List Char → YamlHeader) (fs : FileSystem) (st : LoaderState)
    (skillName : String) : Except String Skill :=
  match mapGet st.skillRegistry skillName with
  | none =>
    .error ("Skill \"" ++ skillName ++ "\" not found. Run list_skills to see available skills.")
  | some skillInfo =>
    let skillFilePath := pathJoin skillInfo.path "SKILL.md"
    match fs.readFile skillFilePath with
    | .error msg => .error ("Failed to load skill \"" ++ skillName ++ "\": " ++ msg)
    | .ok fileContent =>
      match parseSkillFile yaml fileContent with
      | .error e => .error ("Failed to load skill \"" ++ skillName ++ "\": " ++ e.message)
      | .ok (metadata, content) =>
        .ok ⟨metadata.name, metadata.description, content, skillInfo.path, skillInfo.source⟩

/-- `getSkillMetadata` (src/skill-loader.ts): same lookup and fresh
read-and-parse path, returning metadata plus source, without the body. -/
def getSkillMetadata (yaml : List Char → YamlHeader) (fs : FileSystem) (st : LoaderState)
    (skillName : String) : Except String (SkillMetadata × String) :=
  match mapGet st.skillRegistry skillName with
  | none => .error ("Skill \"" ++ skillName ++ "\" not found")
  | some skillInfo =>
    let skillFilePath := pathJoin skillInfo.path "SKILL.md"
    match fs.readFile skillFilePath with
    | .error msg =>
      .error ("Failed to load metadata for skill \"" ++ skillName ++ "\": " ++ msg)
    | .ok fileContent =>
      match parseSkillFile yaml fileContent with
      | .error e =>
        .error ("Failed to load metadata for skill \"" ++ skillName ++ "\": " ++ e.message)
      | .ok (metadata, _) => .ok (metadata, skillInfo.source)

/-- Inputs of `getAllSkillsDirectories` (src/index.ts): the candidate
paths computed from package root / homedir / cwd, the `SKILLS_DIR`
environment value, and `fs.existsSync`. -/
structure DirEnv where
  packageSkills : String
  homeClaudeSkills : String
  projectClaudeSkills : String
  defaultSkills : String
  skillsDirEnvVar : Option String
  existsSync : String → Bool

/-- `getAllSkillsDirectories` (src/index.ts): the ordered directory
list, lowest to highest priority. -/
def getAllSkillsDirectories (env : DirEnv) : List String :=
  let directories : List String := []
  let directories :=
    if env.existsSync env.packageSkills then directories ++ [env.packageSkills] else directories
  let directories :=
    if env.existsSync env.homeClaudeSkills then directories ++ [env.homeClaudeSkills]
    else directories
  let directories :=
    if env.existsSync env.projectClaudeSkills then directories ++ [env.projectClaudeSkills]
    else directories
  let directories :=
    if env.existsSync env.defaultSkills then directories ++ [env.defaultSkills] else directories
  let directories :=
    match env.skillsDirEnvVar with
    | some s => if s ≠ "" then directories ++ [s] else directories
    | none => directories
  if directories = [] then [env.packageSkills] else directories

/-- One item of an MCP tool-call response (always `type: "text"`). -/
structure ContentItem where
  type : String
  text : String
deriving DecidableEq

/-- An MCP tool-call response: a list of content items. -/
structure McpResponse where
  content : List ContentItem
deriving DecidableEq

/-- The arguments object of a tool call; `skill_name` may be absent. -/
structure CallArgs where
  skill_name : Option String
deriving DecidableEq

/-- The text template `handleGetSkill` renders a loaded skill into. -/
def formatSkillOutput (skill : Skill) : String :=
  String.intercalate "\n"
    ["# Skill: " ++ skill.name, "",
     "**Description:** " ++ skill.description,
     "**Source:** " ++ skill.source, "", "---", "",
     String.mk skill.content]

/-- `handleGetSkill` (src/index.ts): validate `skill_name`, load the
skill, format it; a thrown error is the `.error` case. -/
def handleGetSkill (yaml : List Char → YamlHeader) (fs : FileSystem) (st : LoaderState)
    (args : Option CallArgs) : Except String McpResponse :=
  match args.bind CallArgs.skill_name with
  | none => .error "skill_name is required"
  | some skillName =>
    if skillName = "" then .error "skill_name is required"
    else
      match loadSkill yaml fs st skillName with
      | .error msg => .error msg
      | .ok skill => .ok ⟨[⟨"text", formatSkillOutput skill⟩]⟩

/-- The `CallToolRequestSchema` handler (src/index.ts): dispatch on the
tool name; every thrown error is caught and returned as an ordinary
`Error: ...` text response. -/
def handleCallTool (yaml : List Char → YamlHeader) (fs : FileSystem) (st : LoaderState)
    (toolName : String) (args : Option CallArgs) : McpResponse :=
  let result : Except String McpResponse :=
    if toolName = "get_skill" then handleGetSkill yaml fs st args
    else .error ("Unknown tool: " ++ toolName)
  match result with
  | .ok r => r
  | .error errorMessage => ⟨[⟨"text", "Error: " ++ errorMessage⟩]⟩

/-- Split a character list on newline characters. -/
def splitLines (s : List Char) : List (List Char) :=
  s.splitOn '\n'

/-- Decode one `key: value` line of a frontmatter block. -/
def lineKV (l : List Char) : Option (String × String) :=
  let key := l.takeWhile (· ≠ ':')
  match l.dropWhile (· ≠ ':') with
  | ':' :: v => some (String.mk (jsTrim key), String.mk (jsTrim v))
  | _ => none

/-- Look a key up among the `key: value` lines of a block. -/
def yamlLookup (s : List Char) (key : String) : Option String :=
  (((splitLines s).filterMap lineKV).find? (fun p => p.1 = key)).map (·.2)

/-- A concrete frontmatter decoder for the `key: value` subset of YAML
that skill files use; serves as the `yaml` argument in concrete runs. -/
def yamlSimple (s : List Char) : YamlHeader :=
  ⟨yamlLookup s "name", yamlLookup s "description"⟩

/-- A directory entry of `skillsPath` that makes skill `S` discoverable:
named `S`, a directory, and its SKILL.md passes the `fs.access` probe. -/
def entryGoodB (fs : FileSystem) (skillsPath S : String) (e : DirEntry) : Bool :=
  (e.name = S : Bool) && e.isDir && fs.access (pathJoin (pathJoin skillsPath S) "SKILL.md")

/-- Skill `S` is discoverable under directory `d`: `d` can be listed
and contains a qualifying subdirectory named `S`. -/
def discoverableInB (fs : FileSystem) (d S : String) : Bool :=
  match fs.readdir d with
  | .ok es => es.any (entryGoodB fs d S)
  | _ => false

/-- The registry-map effect of scanning one directory (first component
of `scanStep`). -/
def scanDirMap (fs : FileSystem) (m : List (String × SkillInfo)) (d : String) :
    List (String × SkillInfo) :=
  match fs.readdir d with
  | .ok entries => entries.foldl (scanEntry fs d) m
  | _ => m

/-- The log output of scanning one directory (second component of
`scanStep`). -/
def scanDirLog (fs : FileSystem) (d : String) : List (String × String) :=
  match fs.readdir d with
  | .failure msg => [("Error reading directory " ++ d ++ ":", msg)]
  | _ => []

/-- `fs.readdir` did not succeed (the directory is missing or cannot
be listed). -/
def readdirFailed : ReadDirResult → Bool
  | .ok _ => false
  | _ => true

/-- Fixture: two skills directories `/a` and `/b`, each with a `sk`
subdirectory containing a SKILL.md. -/
def fsTwoDirs : FileSystem where
  readdir d :=
    if d = "/a" then .ok [⟨"sk", true⟩]
    else if d = "/b" then .ok [⟨"sk", true⟩]
    else .enoent
  access p := p == "/a/sk/SKILL.md" || p == "/b/sk/SKILL.md"
  readFile _ := .error "ENOENT"

/-- Fixture: one skills directory `/a` holding skill `sk` with a
well-formed SKILL.md. -/
def fsWellFormed : FileSystem where
  readdir d := if d = "/a" then .ok [⟨"sk", true⟩] else .enoent
  access p := p == "/a/sk/SKILL.md"
  readFile p :=
    if p = "/a/sk/SKILL.md" then
      .ok "---\nname: my-skill\ndescription: demo\n---\n\nThe Body\n".toList
    else .error "ENOENT"

/-- Fixture: the skill file of `sk` before an on-disk edit. -/
def fsBeforeEdit : FileSystem where
  readdir _ := .enoent
  access _ := false
  readFile p :=
    if p = "/a/sk/SKILL.md" then
      .ok "---\nname: a\ndescription: d\n---\nOld body".toList
    else .error "ENOENT"

/-- Fixture: the same filesystem after the skill body was edited. -/
def fsAfterEdit : FileSystem where
  readdir _ := .enoent
  access _ := false
  readFile p :=
    if p = "/a/sk/SKILL.md" then
      .ok "---\nname: a\ndescription: d\n---\nNew body".toList
    else .error "ENOENT"

/-- Fixture: a directory that cannot be listed next to a healthy one. -/
def fsFailingDir : FileSystem where
  readdir d :=
    if d = "/bad" then .failure "EACCES"
    else if d = "/b" then .ok [⟨"sk", true⟩]
    else .enoent
  access p := p == "/b/sk/SKILL.md"
  readFile _ := .error "ENOENT"

/-- Fixture: skill directory `sk` whose frontmatter `name` field is
`other-name`, different from the directory name. -/
def fsNameMismatch : FileSystem where
  readdir d := if d = "/a" then .ok [⟨"sk", true⟩] else .enoent
  access p := p == "/a/sk/SKILL.md"
  readFile p :=
    if p = "/a/sk/SKILL.md" then
      .ok "---\nname: other-name\ndescription: demo\n---\nBody".toList
    else .error "ENOENT"

/-- Fixture: a loader state whose registry maps `sk` to `/a/sk`. -/
def stOne : LoaderState :=
  ⟨["/a"], [("sk", ⟨"/a/sk", "/a"⟩)]⟩

/-- Fixture: a `DirEnv` where nothing exists on disk but `SKILLS_DIR`
is set. -/
def envSkillsDirOnly : DirEnv :=
  ⟨"/pkg/skills", "/home/user/.claude/skills", "/app/.claude/skills", "/app/skills",
    some "/custom/skills", fun _ => false⟩

theorem mapGet_set_self (m : List (String × SkillInfo)) (k : String) (v : SkillInfo) :
    mapGet (mapSet m k v) k = some v := by
  induction m with
  | nil => simp [mapSet, mapGet]
  | cons p m ih =>
    by_cases h : p.1 = k
    · simp [mapSet, mapGet, h]
    · simp [mapSet, mapGet, h, ih]

theorem mapGet_set_other (m : List (String × SkillInfo)) (k k' : String) (v : SkillInfo)
    (h : k' ≠ k) : mapGet (mapSet m k' v) k = mapGet m k := by
  induction m with
  | nil => simp [mapSet, mapGet, h]
  | cons p m ih =>
    by_cases hp : p.1 = k'
    · simp [mapSet, mapGet, hp, h, hp ▸ h]
    · simp [mapSet, mapGet, hp, ih]

theorem mapGet_eq_none_iff (m : List (String × SkillInfo)) (k : String) :
    mapGet m k = none ↔ k ∉ m.map Prod.fst := by
  induction m with
  | nil => simp [mapGet]
  | cons p m ih =>
    by_cases h : p.1 = k
    · simp [mapGet, h]
    · simp [mapGet, h, ih, Ne.symm h]

theorem scanEntry_fold_get (fs : FileSystem) (d S : String) :
    ∀ (es : List DirEntry) (m : List (String × SkillInfo)),
      mapGet (es.foldl (scanEntry fs d) m) S =
        if es.any (entryGoodB fs d S) then some ⟨pathJoin d S, d⟩ else mapGet m S
  | [], m => by simp
  | e :: es, m => by
    rw [List.foldl_cons, scanEntry_fold_get fs d S es]
    by_cases hg : entryGoodB fs d S e = true
    · obtain ⟨⟨hn, hd⟩, ha⟩ : (e.name = S ∧ e.isDir = true) ∧
          fs.access (pathJoin (pathJoin d S) "SKILL.md") = true := by
        simpa [entryGoodB, Bool.and_eq_true] using hg
      have hwrite : scanEntry fs d m e = mapSet m S ⟨pathJoin d S, d⟩ := by
        simp [scanEntry, hd, hn, ha]
      simp [List.any_cons, hg, hwrite, mapGet_set_self]
    · have hg' : entryGoodB fs d S e = false := by
        simpa using hg
      have hpres : mapGet (scanEntry fs d m e) S = mapGet m S := by
        by_cases hn : e.name = S
        · rcases hd : e.isDir with _ | _
          · simp [scanEntry, hd]
          · have ha : fs.access (pathJoin (pathJoin d S) "SKILL.md") = false := by
              by_contra hc
              have : fs.access (pathJoin (pathJoin d S) "SKILL.md") = true := by
                simpa using hc
              simp [entryGoodB, hn, hd, this] at hg'
            simp [scanEntry, hd, hn, ha]
        · rcases hd : e.isDir with _ | _
          · simp [scanEntry, hd]
          · rcases ha : fs.access (pathJoin (pathJoin d e.name) "SKILL.md") with _ | _
            · simp [scanEntry, hd, ha]
            · simp [scanEntry, hd, ha, mapGet_set_other _ _ _ _ hn]
      simp [List.any_cons, hg', hpres]

theorem scanDirMap_get (fs : FileSystem) (m : List (String × SkillInfo)) (d S : String) :
    mapGet (scanDirMap fs m d) S =
      if discoverableInB fs d S then some ⟨pathJoin d S, d⟩ else mapGet m S := by
  rcases h : fs.readdir d with es | _ | msg
  · simp [scanDirMap, discoverableInB, h, scanEntry_fold_get]
  · simp [scanDirMap, discoverableInB, h]
  · simp [scanDirMap, discoverableInB, h]

theorem scanDirMap_fold_get_of_none (fs : FileSystem) (S : String) :
    ∀ (dirs : List String) (m : List (String × SkillInfo)),
      (∀ d ∈ dirs, discoverableInB fs d S = false) →
      mapGet (dirs.foldl (scanDirMap fs) m) S = mapGet m S
  | [], m, _ => rfl
  | d :: dirs, m, h => by
    rw [List.foldl_cons, scanDirMap_fold_get_of_none fs S dirs _ (fun x hx => h x (by simp [hx]))]
    rw [scanDirMap_get, if_neg]
    simp [h d (by simp)]

theorem foldl_scanStep_fst (fs : FileSystem) :
    ∀ (dirs : List String) (acc : List (String × SkillInfo) × List (String × String)),
      (dirs.foldl (scanStep fs) acc).1 = dirs.foldl (scanDirMap fs) acc.1
  | [], acc => rfl
  | d :: dirs, acc => by
    rw [List.foldl_cons, List.foldl_cons, foldl_scanStep_fst fs dirs]
    rcases h : fs.readdir d with es | _ | msg <;> simp [scanStep, scanDirMap, h]

theorem foldl_scanStep_snd (fs : FileSystem) :
    ∀ (dirs : List String) (acc : List (String × SkillInfo) × List (String × String)),
      (dirs.foldl (scanStep fs) acc).2 = acc.2 ++ (dirs.map (scanDirLog fs)).flatten
  | [], acc => by simp
  | d :: dirs, acc => by
    rw [List.foldl_cons, foldl_scanStep_snd fs dirs]
    rcases h : fs.readdir d with es | _ | msg <;>
      simp [scanStep, scanDirLog, h]

theorem discover_registry_eq (fs : FileSystem) (st : LoaderState) :
    (discoverSkills fs st).state.skillRegistry =
      st.skillsPaths.foldl (scanDirMap fs) [] := by
  show (st.skillsPaths.foldl (scanStep fs) ([], [])).1 = _
  rw [foldl_scanStep_fst]

theorem discover_names_eq (fs : FileSystem) (st : LoaderState) :
    (discoverSkills fs st).names =
      List.insertionSort (· ≤ ·)
        ((st.skillsPaths.foldl (scanDirMap fs) []).map Prod.fst) := by
  show List.insertionSort (· ≤ ·) ((st.skillsPaths.foldl (scanStep fs) ([], [])).1.map Prod.fst) = _
  rw [foldl_scanStep_fst]

theorem discover_logs_eq (fs : FileSystem) (st : LoaderState) :
    (discoverSkills fs st).logs = (st.skillsPaths.map (scanDirLog fs)).flatten := by
  show (st.skillsPaths.foldl (scanStep fs) ([], [])).2 = _
  rw [foldl_scanStep_snd]
  simp

theorem discover_registry_get_last (fs : FileSystem) (st : LoaderState) (S Dj : String)
    (l₁ l₂ : List String)
    (hsplit : st.skillsPaths = l₁ ++ Dj :: l₂)
    (hDj : discoverableInB fs Dj S = true)
    (hlast : ∀ d ∈ l₂, discoverableInB fs d S = false) :
    mapGet (discoverSkills fs st).state.skillRegistry S = some ⟨pathJoin Dj S, Dj⟩ := by
  rw [discover_registry_eq, hsplit, List.foldl_append, List.foldl_cons,
    scanDirMap_fold_get_of_none fs S l₂ _ hlast, scanDirMap_get, if_pos hDj]

theorem discover_registry_get_none (fs : FileSystem) (st : LoaderState) (S : String)
    (h : ∀ d ∈ st.skillsPaths, discoverableInB fs d S = false) :
    mapGet (discoverSkills fs st).state.skillRegistry S = none := by
  rw [discover_registry_eq, scanDirMap_fold_get_of_none fs S _ _ h]
  rfl

theorem mem_discover_names_iff (fs : FileSystem) (st : LoaderState) (S : String) :
    S ∈ (discoverSkills fs st).names ↔
      mapGet (discoverSkills fs st).state.skillRegistry S ≠ none := by
  rw [discover_names_eq, discover_registry_eq, List.mem_insertionSort]
  rw [← not_iff_not, not_not, mapGet_eq_none_iff]

theorem isPrefixOf_append_self (l r : List Char) : l.isPrefixOf (l ++ r) = true := by
  induction l with
  | nil => simp [List.isPrefixOf]
  | cons c cs ih => simp [List.isPrefixOf, ih]

theorem findFromAux_spec (pat : List Char) :
    ∀ (m : Nat) (s : List Char) (k : Nat),
      pat.isPrefixOf (s.drop m) = true →
      (∀ i < m, pat.isPrefixOf (s.drop i) = false) →
      findFromAux pat s k = some (k + m)
  | 0, s, k, hm, _ => by
    rw [List.drop_zero] at hm
    rcases s with _ | ⟨c, rest⟩ <;>
      simp only [findFromAux, hm, if_true, Nat.add_zero, reduceIte]
  | m + 1, s, k, hm, hlt => by
    rcases s with _ | ⟨c, rest⟩
    · rw [List.drop_nil] at hm
      have h0 := hlt 0 (Nat.succ_pos m)
      rw [List.drop_zero] at h0
      simp [h0] at hm
    · have h0 : pat.isPrefixOf (c :: rest) = false := by
        have := hlt 0 (Nat.succ_pos m)
        rwa [List.drop_zero] at this
      rw [List.drop_succ_cons] at hm
      simp only [findFromAux, h0]
      rw [if_neg (by simp)]
      rw [findFromAux_spec pat m rest (k + 1) hm
        (fun i hi => by
          have := hlt (i + 1) (Nat.succ_lt_succ hi)
          rwa [List.drop_succ_cons] at this)]
      have harith : k + 1 + m = k + (m + 1) := by omega
      rw [harith]

theorem findFrom_wellFormed (F B : List Char)
    (hno : ∀ i < F.length, closeDelim.isPrefixOf ((F ++ closeDelim ++ B).drop i) = false) :
    findFrom closeDelim (openDelim ++ F ++ closeDelim ++ B) 4 = some (F.length + 4) := by
  have hdrop : (openDelim ++ F ++ closeDelim ++ B).drop 4 = F ++ closeDelim ++ B := by
    rw [show openDelim ++ F ++ closeDelim ++ B = openDelim ++ (F ++ closeDelim ++ B) by
        simp [List.append_assoc],
      show (4 : Nat) = openDelim.length from rfl, List.drop_left]
  rw [findFrom, hdrop]
  have hm : closeDelim.isPrefixOf ((F ++ closeDelim ++ B).drop F.length) = true := by
    rw [List.append_assoc F closeDelim B, List.drop_left]
    exact isPrefixOf_append_self _ _
  rw [findFromAux_spec closeDelim F.length (F ++ closeDelim ++ B) 0 hm hno]
  simp

theorem parseSkillFile_wellFormed (yaml : List Char → YamlHeader) (F B : List Char)
    (hno : ∀ i < F.length, closeDelim.isPrefixOf ((F ++ closeDelim ++ B).drop i) = false) :
    parseSkillFile yaml (openDelim ++ F ++ closeDelim ++ B) =
      if strFalsy (yaml F).name then .error .missingNameField
      else if strFalsy (yaml F).description then .error .missingDescriptionField
      else .ok (⟨(yaml F).name.getD "", (yaml F).description.getD ""⟩, jsTrim B) := by
  have hopen : openDelim.isPrefixOf (openDelim ++ F ++ closeDelim ++ B) = true := by
    rw [show openDelim ++ F ++ closeDelim ++ B = openDelim ++ (F ++ closeDelim ++ B) by
      simp [List.append_assoc]]
    exact isPrefixOf_append_self _ _
  have hdrop4 : (openDelim ++ F ++ closeDelim ++ B).drop 4 = F ++ closeDelim ++ B := by
    rw [show openDelim ++ F ++ closeDelim ++ B = openDelim ++ (F ++ closeDelim ++ B) by
        simp [List.append_assoc],
      show (4 : Nat) = openDelim.length from rfl, List.drop_left]
  have hdropB : (openDelim ++ F ++ closeDelim ++ B).drop (F.length + 4 + 5) = B := by
    have h2 : (openDelim ++ F ++ closeDelim).length = F.length + 4 + 5 := by
      simp [openDelim, closeDelim, List.length_append]
    rw [← h2, List.drop_left]
  have htake : (F ++ closeDelim ++ B).take (F.length + 4 - 4) = F := by
    rw [Nat.add_sub_cancel, List.append_assoc F closeDelim B, List.take_left]
  simp only [parseSkillFile, hopen, if_true, findFrom_wellFormed F B hno, hdrop4, htake, hdropB]

/-- C1: for a directory list in priority order, when a skill name `S`
is discoverable under both `Di` and `Dj` with `i < j` (`Dj` being the
later, highest-priority directory containing `S`), the registry entry
for `S` after `discoverSkills` records the subdirectory path and source
directory of `Dj`. -/
theorem later_directory_wins (fs : FileSystem) (st : LoaderState) (S Di Dj : String)
    (l₁ l₂ l₃ : List String)
    (hsplit : st.skillsPaths = l₁ ++ Di :: l₂ ++ Dj :: l₃)
    (hDi : discoverableInB fs Di S = true)
    (hDj : discoverableInB fs Dj S = true)
    (hlast : ∀ d ∈ l₃, discoverableInB fs d S = false) :
    mapGet (discoverSkills fs st).state.skillRegistry S = some ⟨pathJoin Dj S, Dj⟩ :=
  discover_registry_get_last fs st S Dj (l₁ ++ Di :: l₂) l₃ hsplit hDj hlast

/-- Witness for C1 at a concrete two-directory filesystem: the entry
for `sk` comes from `/b`, the later directory. -/
theorem later_directory_wins_witness :
    mapGet (discoverSkills fsTwoDirs (newLoader ["/a", "/b"])).state.skillRegistry "sk" =
      some ⟨pathJoin "/b" "sk", "/b"⟩ :=
  later_directory_wins fsTwoDirs (newLoader ["/a", "/b"]) "sk" "/a" "/b" [] [] []
    rfl (by decide) (by decide) (by simp)

/-- C2: `loadSkill` and `getSkillMetadata` read the file fresh on every
call; between two calls for the same registered name, the second call's
result is computed from the file content current at that call (there is
no cache in `LoaderState`). -/
theorem load_reads_fresh (yaml : List Char → YamlHeader) (fs₁ fs₂ : FileSystem)
    (st : LoaderState) (n : String) (info : SkillInfo)
    (c₁ c₂ : List Char) (md₁ md₂ : SkillMetadata) (body₁ body₂ : List Char)
    (hreg : mapGet st.skillRegistry n = some info)
    (hread₁ : fs₁.readFile (pathJoin info.path "SKILL.md") = .ok c₁)
    (hparse₁ : parseSkillFile yaml c₁ = .ok (md₁, body₁))
    (hread₂ : fs₂.readFile (pathJoin info.path "SKILL.md") = .ok c₂)
    (hparse₂ : parseSkillFile yaml c₂ = .ok (md₂, body₂)) :
    loadSkill yaml fs₁ st n = .ok ⟨md₁.name, md₁.description, body₁, info.path, info.source⟩ ∧
    loadSkill yaml fs₂ st n = .ok ⟨md₂.name, md₂.description, body₂, info.path, info.source⟩ ∧
    getSkillMetadata yaml fs₂ st n = .ok (md₂, info.source) := by
  refine ⟨?_, ?_, ?_⟩
  · simp [loadSkill, hreg, hread₁, hparse₁]
  · simp [loadSkill, hreg, hread₂, hparse₂]
  · simp [getSkillMetadata, hreg, hread₂, hparse₂]

/-- Witness for C2: editing the body of `sk` on disk changes what the
very next `loadSkill` and `getSkillMetadata` calls return. -/
theorem load_reads_fresh_witness :
    loadSkill yamlSimple fsBeforeEdit stOne "sk" =
      .ok ⟨"a", "d", "Old body".toList, "/a/sk", "/a"⟩ ∧
    loadSkill yamlSimple fsAfterEdit stOne "sk" =
      .ok ⟨"a", "d", "New body".toList, "/a/sk", "/a"⟩ ∧
    getSkillMetadata yamlSimple fsAfterEdit stOne "sk" = .ok (⟨"a", "d"⟩, "/a") :=
  load_reads_fresh yamlSimple fsBeforeEdit fsAfterEdit stOne "sk" ⟨"/a/sk", "/a"⟩
    "---\nname: a\ndescription: d\n---\nOld body".toList
    "---\nname: a\ndescription: d\n---\nNew body".toList
    ⟨"a", "d"⟩ ⟨"a", "d"⟩ "Old body".toList "New body".toList
    (by decide) (by decide) (by decide) (by decide) (by decide)

/-- C3 counterexample: with `SKILLS_DIR` set to a path that does not
exist (`existsSync` is false everywhere), the path is still included in
the resolved directory list — the existence gate is not applied to it. -/
theorem skills_dir_skips_existence_gate :
    envSkillsDirOnly.existsSync "/custom/skills" = false ∧
    "/custom/skills" ∈ getAllSkillsDirectories envSkillsDirOnly := by
  decide

/-- C3 amended: a set, non-empty `SKILLS_DIR` value is always appended
as the last (highest-priority) entry of the resolved directory list,
regardless of whether it exists on disk; the existence gate applies
only to the other four candidates. -/
theorem skills_dir_always_included (env : DirEnv) (s : String)
    (hset : env.skillsDirEnvVar = some s) (hne : s ≠ "") :
    (getAllSkillsDirectories env).getLast? = some s := by
  simp only [getAllSkillsDirectories, hset]
  rw [if_pos hne, if_neg (by simp)]
  exact List.getLast?_concat _

/-- Witness for the amended C3 at the concrete environment. -/
theorem skills_dir_always_included_witness :
    (getAllSkillsDirectories envSkillsDirOnly).getLast? = some "/custom/skills" :=
  skills_dir_always_included envSkillsDirOnly "/custom/skills" rfl (by decide)

/-- C4: the parser fails with four mutually distinct, specifically
named violations: no opening delimiter, no closing delimiter, missing
`name` field, missing `description` field — each its own error with
its own message, never collapsed. -/
theorem parse_four_distinct_violations (yaml : List Char → YamlHeader) :
    (∀ content, openDelim.isPrefixOf content = false →
      parseSkillFile yaml content = .error .missingOpeningDelimiter) ∧
    (∀ content, openDelim.isPrefixOf content = true →
      findFrom closeDelim content 4 = none →
      parseSkillFile yaml content = .error .missingClosingDelimiter) ∧
    (∀ content j, openDelim.isPrefixOf content = true →
      findFrom closeDelim content 4 = some j →
      strFalsy (yaml ((content.drop 4).take (j - 4))).name = true →
      parseSkillFile yaml content = .error .missingNameField) ∧
    (∀ content j, openDelim.isPrefixOf content = true →
      findFrom closeDelim content 4 = some j →
      strFalsy (yaml ((content.drop 4).take (j - 4))).name = false →
      strFalsy (yaml ((content.drop 4).take (j - 4))).description = true →
      parseSkillFile yaml content = .error .missingDescriptionField) ∧
    List.Pairwise (fun a b => ParseError.message a ≠ ParseError.message b)
      [ParseError.missingOpeningDelimiter, ParseError.missingClosingDelimiter,
       ParseError.missingNameField, ParseError.missingDescriptionField] := by
  refine ⟨?_, ?_, ?_, ?_, by decide⟩
  · intro content h
    simp [parseSkillFile, h]
  · intro content h hf
    simp [parseSkillFile, h, hf]
  · intro content j h hf hn
    simp [parseSkillFile, h, hf, hn]
  · intro content j h hf hn hd
    simp [parseSkillFile, h, hf, hn, hd]

/-- Witness for C4: each of the four malformed inputs yields its own
violation. -/
theorem parse_four_distinct_violations_witness :
    parseSkillFile yamlSimple "no delimiter".toList = .error .missingOpeningDelimiter ∧
    parseSkillFile yamlSimple "---\nname: a\ndescription: b\n".toList =
      .error .missingClosingDelimiter ∧
    parseSkillFile yamlSimple "---\ndescription: b\n---\nBody".toList =
      .error .missingNameField ∧
    parseSkillFile yamlSimple "---\nname: a\n---\nBody".toList =
      .error .missingDescriptionField := by
  have h := parse_four_distinct_violations yamlSimple
  exact ⟨h.1 _ (by decide), h.2.1 _ (by decide) (by decide),
    h.2.2.1 _ 18 (by decide) (by decide) (by decide),
    h.2.2.2.1 _ 11 (by decide) (by decide) (by decide) (by decide)⟩

/-- C5: for a well-formed skill file, the returned record's body is
exactly the text after the closing delimiter with surrounding
whitespace trimmed, and its name and description come only from the
frontmatter header, not from the directory or file name. -/
theorem load_wellFormed_record (yaml : List Char → YamlHeader) (fs : FileSystem)
    (st : LoaderState) (n : String) (info : SkillInfo) (F B : List Char) (nm ds : String)
    (hreg : mapGet st.skillRegistry n = some info)
    (hread : fs.readFile (pathJoin info.path "SKILL.md") =
      .ok (openDelim ++ F ++ closeDelim ++ B))
    (hno : ∀ i < F.length, closeDelim.isPrefixOf ((F ++ closeDelim ++ B).drop i) = false)
    (hyaml : yaml F = ⟨some nm, some ds⟩) (hnm : nm ≠ "") (hds : ds ≠ "") :
    loadSkill yaml fs st n = .ok ⟨nm, ds, jsTrim B, info.path, info.source⟩ := by
  have hp := parseSkillFile_wellFormed yaml F B hno
  rw [hyaml] at hp
  have h1 : strFalsy (some nm) = false := by simp [strFalsy, hnm]
  have h2 : strFalsy (some ds) = false := by simp [strFalsy, hds]
  simp only [h1, h2, if_false, Bool.false_eq_true, reduceIte, Option.getD_some] at hp
  simp only [List.append_assoc] at hp
  simp [loadSkill, hreg, hread, hp]

/-- Witness for C5 at a concrete well-formed file whose trailing text
is `"\nThe Body\n"`; the body is its trimmed form. -/
theorem load_wellFormed_record_witness :
    loadSkill yamlSimple fsWellFormed stOne "sk" =
      .ok ⟨"my-skill", "demo", jsTrim "\nThe Body\n".toList, "/a/sk", "/a"⟩ :=
  load_wellFormed_record yamlSimple fsWellFormed stOne "sk" ⟨"/a/sk", "/a"⟩
    "name: my-skill\ndescription: demo".toList "\nThe Body\n".toList "my-skill" "demo"
    (by decide) (by decide) (by decide) (by decide) (by decide) (by decide)

/-- C6: `discoverSkills` is deterministic for a fixed filesystem — a
second call right after a first returns the same name list — and every
returned name list is sorted. -/
theorem discover_deterministic_and_sorted (fs : FileSystem) (st : LoaderState) :
    (discoverSkills fs (discoverSkills fs st).state).names = (discoverSkills fs st).names ∧
    List.Sorted (· ≤ ·) (discoverSkills fs st).names := by
  constructor
  · rfl
  · rw [discover_names_eq]
    exact List.sorted_insertionSort _ _

/-- C7: a configured directory that cannot be listed never aborts
discovery: it contributes nothing to the registry or names (which equal
those of a scan without it), an ENOENT failure logs nothing, and any
other listing failure logs the directory and its error while the
remaining directories are still scanned. -/
theorem failing_directory_skipped (fs : FileSystem) (st : LoaderState) (d : String)
    (l₁ l₂ : List String)
    (hsplit : st.skillsPaths = l₁ ++ d :: l₂)
    (hfail : readdirFailed (fs.readdir d) = true) :
    (discoverSkills fs st).names = (discoverSkills fs ⟨l₁ ++ l₂, st.skillRegistry⟩).names ∧
    (discoverSkills fs st).state.skillRegistry =
      (discoverSkills fs ⟨l₁ ++ l₂, st.skillRegistry⟩).state.skillRegistry ∧
    (fs.readdir d = .enoent →
      (discoverSkills fs st).logs = (discoverSkills fs ⟨l₁ ++ l₂, st.skillRegistry⟩).logs) ∧
    (∀ msg, fs.readdir d = .failure msg →
      (discoverSkills fs st).logs =
        (l₁.map (scanDirLog fs)).flatten ++
          ("Error reading directory " ++ d ++ ":", msg) ::
            (l₂.map (scanDirLog fs)).flatten) := by
  have hid : ∀ m, scanDirMap fs m d = m := by
    intro m
    rcases h : fs.readdir d with es | _ | msg
    · simp [h, readdirFailed] at hfail
    · simp [scanDirMap, h]
    · simp [scanDirMap, h]
  have hfold : st.skillsPaths.foldl (scanDirMap fs) [] =
      (l₁ ++ l₂).foldl (scanDirMap fs) [] := by
    rw [hsplit, List.foldl_append, List.foldl_cons, hid, ← List.foldl_append]
  refine ⟨?_, ?_, ?_, ?_⟩
  · rw [discover_names_eq, discover_names_eq, hfold]
  · rw [discover_registry_eq, discover_registry_eq, hfold]
  · intro h
    rw [discover_logs_eq, discover_logs_eq, hsplit]
    simp [scanDirLog, h]
  · intro msg h
    rw [discover_logs_eq, hsplit]
    simp [scanDirLog, h]

/-- Witness for C7: `/bad` fails with `EACCES`; `sk` under `/b` is
still discovered and the failure is logged. -/
theorem failing_directory_skipped_witness :
    (discoverSkills fsFailingDir (newLoader ["/bad", "/b"])).names =
      (discoverSkills fsFailingDir ⟨[] ++ ["/b"], (newLoader ["/bad", "/b"]).skillRegistry⟩).names ∧
    (discoverSkills fsFailingDir (newLoader ["/bad", "/b"])).state.skillRegistry =
      (discoverSkills fsFailingDir
        ⟨[] ++ ["/b"], (newLoader ["/bad", "/b"]).skillRegistry⟩).state.skillRegistry ∧
    (fsFailingDir.readdir "/bad" = .enoent →
      (discoverSkills fsFailingDir (newLoader ["/bad", "/b"])).logs =
        (discoverSkills fsFailingDir
          ⟨[] ++ ["/b"], (newLoader ["/bad", "/b"]).skillRegistry⟩).logs) ∧
    (∀ msg, fsFailingDir.readdir "/bad" = .failure msg →
      (discoverSkills fsFailingDir (newLoader ["/bad", "/b"])).logs =
        (([] : List String).map (scanDirLog fsFailingDir)).flatten ++
          ("Error reading directory " ++ "/bad" ++ ":", msg) ::
            ((["/b"] : List String).map (scanDirLog fsFailingDir)).flatten) :=
  failing_directory_skipped fsFailingDir (newLoader ["/bad", "/b"]) "/bad" [] ["/b"]
    rfl (by decide)

/-- C8: at the tool-call boundary, an unknown tool name and a missing
`skill_name` parameter each produce an ordinary text response on the
normal channel (`handleCallTool` is total — every thrown error is
caught and rendered as `Error: ...` text). -/
theorem invocation_errors_are_text (yaml : List Char → YamlHeader) (fs : FileSystem)
    (st : LoaderState) :
    (∀ toolName args, toolName ≠ "get_skill" →
      handleCallTool yaml fs st toolName args =
        ⟨[⟨"text", "Error: " ++ ("Unknown tool: " ++ toolName)⟩]⟩) ∧
    (∀ args, args.bind CallArgs.skill_name = none ∨ args.bind CallArgs.skill_name = some "" →
      handleCallTool yaml fs st "get_skill" args =
        ⟨[⟨"text", "Error: " ++ "skill_name is required"⟩]⟩) := by
  constructor
  · intro toolName args h
    simp [handleCallTool, h]
  · rintro args (h | h) <;> simp [handleCallTool, handleGetSkill, h]

/-- Witness for C8: an unknown tool and a call without `skill_name`
both come back as plain text results. -/
theorem invocation_errors_are_text_witness :
    handleCallTool yamlSimple fsWellFormed stOne "invalid_tool_name" (some ⟨some "sk"⟩) =
      ⟨[⟨"text", "Error: Unknown tool: invalid_tool_name"⟩]⟩ ∧
    handleCallTool yamlSimple fsWellFormed stOne "get_skill" (some ⟨none⟩) =
      ⟨[⟨"text", "Error: skill_name is required"⟩]⟩ := by
  have h := invocation_errors_are_text yamlSimple fsWellFormed stOne
  exact ⟨h.1 "invalid_tool_name" (some ⟨some "sk"⟩) (by decide),
    h.2 (some ⟨none⟩) (Or.inl rfl)⟩

/-- C9: on a freshly constructed loader the registry is empty and
`get_skill` does not trigger discovery, so `loadSkill`,
`getSkillMetadata` and the `get_skill` tool call all fail with the
not-found error naming the requested skill, whatever is on disk. -/
theorem fresh_loader_not_found (yaml : List Char → YamlHeader) (fs : FileSystem)
    (paths : List String) (n : String) :
    loadSkill yaml fs (newLoader paths) n =
      .error ("Skill \"" ++ n ++ "\" not found. Run list_skills to see available skills.") ∧
    getSkillMetadata yaml fs (newLoader paths) n =
      .error ("Skill \"" ++ n ++ "\" not found") ∧
    (n ≠ "" → handleCallTool yaml fs (newLoader paths) "get_skill" (some ⟨some n⟩) =
      ⟨[⟨"text", "Error: " ++
        ("Skill \"" ++ n ++ "\" not found. Run list_skills to see available skills.")⟩]⟩) := by
  refine ⟨rfl, rfl, ?_⟩
  intro h
  simp [handleCallTool, handleGetSkill, h, loadSkill, newLoader, mapGet]

/-- Witness for C9: `sk` is discoverable on disk in `fsWellFormed`, yet
before any discovery every lookup fails with not-found naming `sk`. -/
theorem fresh_loader_not_found_witness :
    loadSkill yamlSimple fsWellFormed (newLoader ["/a"]) "sk" =
      .error "Skill \"sk\" not found. Run list_skills to see available skills." ∧
    getSkillMetadata yamlSimple fsWellFormed (newLoader ["/a"]) "sk" =
      .error "Skill \"sk\" not found" ∧
    handleCallTool yamlSimple fsWellFormed (newLoader ["/a"]) "get_skill" (some ⟨some "sk"⟩) =
      ⟨[⟨"text",
        "Error: Skill \"sk\" not found. Run list_skills to see available skills."⟩]⟩ := by
  have h := fresh_loader_not_found yamlSimple fsWellFormed ["/a"] "sk"
  exact ⟨h.1, h.2.1, h.2.2 (by decide)⟩

/-- C10: discovery names and `loadSkill` lookup keys are the skill
subdirectory names, not the header's `name` field; for a skill whose
directory name differs from its header name, loading by the directory
name succeeds with a record whose `name` differs from the lookup key,
while loading by the header name fails with not-found. -/
theorem lookup_keys_are_directory_names (yaml : List Char → YamlHeader) (fs : FileSystem)
    (st : LoaderState) (dirName hn D : String) (l₁ l₂ : List String)
    (c body : List Char) (md : SkillMetadata)
    (hsplit : st.skillsPaths = l₁ ++ D :: l₂)
    (hdisc : discoverableInB fs D dirName = true)
    (hlastd : ∀ d ∈ l₂, discoverableInB fs d dirName = false)
    (hhn : ∀ d ∈ st.skillsPaths, discoverableInB fs d hn = false)
    (hneq : hn ≠ dirName)
    (hread : fs.readFile (pathJoin (pathJoin D dirName) "SKILL.md") = .ok c)
    (hparse : parseSkillFile yaml c = .ok (md, body))
    (hname : md.name = hn) :
    dirName ∈ (discoverSkills fs st).names ∧
    hn ∉ (discoverSkills fs st).names ∧
    loadSkill yaml fs (discoverSkills fs st).state dirName =
      .ok ⟨hn, md.description, body, pathJoin D dirName, D⟩ ∧
    loadSkill yaml fs (discoverSkills fs st).state hn =
      .error ("Skill \"" ++ hn ++ "\" not found. Run list_skills to see available skills.") := by
  have hreg := discover_registry_get_last fs st dirName D l₁ l₂ hsplit hdisc hlastd
  have hregn := discover_registry_get_none fs st hn hhn
  refine ⟨?_, ?_, ?_, ?_⟩
  · rw [mem_discover_names_iff, hreg]
    simp
  · rw [mem_discover_names_iff, hregn]
    simp
  · simp [loadSkill, hreg, hread, hparse, hname]
  · simp [loadSkill, hregn]

/-- Witness for C10: directory `sk` declares header name `other-name`;
lookups go by `sk`, and `other-name` is not a valid key. -/
theorem lookup_keys_are_directory_names_witness :
    "sk" ∈ (discoverSkills fsNameMismatch (newLoader ["/a"])).names ∧
    "other-name" ∉ (discoverSkills fsNameMismatch (newLoader ["/a"])).names ∧
    loadSkill yamlSimple fsNameMismatch (discoverSkills fsNameMismatch (newLoader ["/a"])).state
        "sk" =
      .ok ⟨"other-name", "demo", "Body".toList, pathJoin "/a" "sk", "/a"⟩ ∧
    loadSkill yamlSimple fsNameMismatch (discoverSkills fsNameMismatch (newLoader ["/a"])).state
        "other-name" =
      .error ("Skill \"" ++ "other-name" ++
        "\" not found. Run list_skills to see available skills.") :=
  lookup_keys_are_directory_names yamlSimple fsNameMismatch (newLoader ["/a"])
    "sk" "other-name" "/a" [] []
    "---\nname: other-name\ndescription: demo\n---\nBody".toList "Body".toList
    ⟨"other-name", "demo"⟩
    rfl (by decide) (by simp) (by decide) (by decide) (by decide) (by decide) rfl
